import Mathlib

/-!
Verification development for the MQ broker lifecycle modules
(`mq_broker.py`, `mq_broker_info.py`, `mq_user_info.py`).

The Python modules are shallowly embedded: dictionaries become association
lists over `String` keys, Python `None`-able module parameters become
`Option` values, fallible operations (KeyError / TypeError paths) return
`Option` / `Except`, and the remote API is an explicit oracle argument.
Transport calls are recorded in an explicit call trace where a claim is
about which calls are issued.
-/

/-! ## JSON-like values (Python scalars / lists / dicts) -/

/-- A Python value as it appears in module parameters and request bodies:
strings, booleans, integers, lists and string-keyed dictionaries. -/
inductive JValue where
  | vStr (s : String)
  | vBool (b : Bool)
  | vInt (n : Int)
  | vList (items : List JValue)
  | vMap (entries : List (String × JValue))

/-- A nested request body (a Python dict keyed by strings). -/
abbrev Kwargs := List (String × JValue)

/-- A flat module-parameter dictionary; `none` is Python `None`. -/
abbrev Params := List (String × Option JValue)

/-- Dictionary lookup (first binding wins, as in a Python dict where keys
are unique). -/
def lookupAssoc {α : Type} : List (String × α) → String → Option α
  | [], _ => none
  | (k, v) :: rest, key => if k = key then some v else lookupAssoc rest key

/-- Dictionary assignment `d[key] = value`: overwrite in place if the key is
present, append otherwise (Python dict insertion-order semantics). -/
def setAssoc {α : Type} : List (String × α) → String → α → List (String × α)
  | [], key, value => [(key, value)]
  | (k, v) :: rest, key, value =>
      if k = key then (k, value) :: rest else (k, v) :: setAssoc rest key value

/-- Dictionary deletion `del d[key]` on a dict that contains the key. -/
def delAssoc {α : Type} : List (String × α) → String → List (String × α)
  | [], _ => []
  | (k, v) :: rest, key => if k = key then rest else (k, v) :: delAssoc rest key

theorem lookupAssoc_setAssoc_self {α : Type} (d : List (String × α)) (k : String) (v : α) :
    lookupAssoc (setAssoc d k v) k = some v := by
  induction d with
  | nil => simp [setAssoc, lookupAssoc]
  | cons e rest ih =>
      obtain ⟨k', v'⟩ := e
      by_cases h : k' = k <;> simp [setAssoc, lookupAssoc, h, ih]

theorem lookupAssoc_setAssoc_ne {α : Type} (d : List (String × α)) (k k' : String) (v : α)
    (h : k ≠ k') : lookupAssoc (setAssoc d k v) k' = lookupAssoc d k' := by
  induction d with
  | nil => simp [setAssoc, lookupAssoc, h]
  | cons e rest ih =>
      obtain ⟨k0, v0⟩ := e
      by_cases h0 : k0 = k
      · subst h0
        simp [setAssoc, lookupAssoc, h]
      · simp [setAssoc, lookupAssoc, h0, ih]

theorem lookupAssoc_delAssoc_ne {α : Type} (d : List (String × α)) (k k' : String)
    (h : k ≠ k') : lookupAssoc (delAssoc d k) k' = lookupAssoc d k' := by
  induction d with
  | nil => simp [delAssoc]
  | cons e rest ih =>
      obtain ⟨k0, v0⟩ := e
      by_cases h0 : k0 = k
      · subst h0
        simp [delAssoc, lookupAssoc, h]
      · simp [delAssoc, lookupAssoc, h0, ih]

theorem lookupAssoc_mem {α : Type} {d : List (String × α)} {k : String} {v : α}
    (h : lookupAssoc d k = some v) : (k, v) ∈ d := by
  induction d with
  | nil => simp [lookupAssoc] at h
  | cons e rest ih =>
      obtain ⟨k0, v0⟩ := e
      by_cases h0 : k0 = k
      · subst h0
        simp [lookupAssoc] at h
        subst h
        exact List.mem_cons_self _ _
      · simp [lookupAssoc, h0] at h
        exact List.mem_cons_of_mem _ (ih h)

/-- Read a value in a nested body by following path segments, outermost
segment first. -/
def getPath : Kwargs → List String → Option JValue
  | _, [] => none
  | kw, [k] => lookupAssoc kw k
  | kw, k :: k2 :: rest =>
      match lookupAssoc kw k with
      | some (.vMap m) => getPath m (k2 :: rest)
      | _ => none

theorem getPath_nil_map (segs : List String) : getPath [] segs = none := by
  match segs with
  | [] => rfl
  | [k] => rfl
  | k :: k2 :: rest => rfl

theorem getPath_congr_head {kw kw' : Kwargs} {h : String} (rest : List String)
    (heq : lookupAssoc kw' h = lookupAssoc kw h) :
    getPath kw' (h :: rest) = getPath kw (h :: rest) := by
  match rest with
  | [] => simpa [getPath] using heq
  | k2 :: rest' => simp [getPath, heq]

-- quick evaluation sanity checks (kernel-reduction of string-keyed lookups)
example : lookupAssoc [("a", (1 : Nat)), ("b", 2)] "b" = some 2 := rfl
example : setAssoc [("a", (1 : Nat))] "a" 5 = [("a", 5)] := rfl
example : getPath [("Logs", .vMap [("Audit", .vBool false)])] ["Logs", "Audit"]
    = some (.vBool false) := rfl

/-! ## Shared broker-listing helper (`get_broker_id` in `mq_broker.py` and,
verbatim-duplicated, in `mq_broker_info.py`) -/

/-- One entry of the `BrokerSummaries` field of a `list_brokers` response. -/
structure BrokerSummary where
  brokerName : String
  brokerId : String
deriving DecidableEq

/-- `get_broker_id`: linear scan of the enumeration, returning the identifier
of the first summary whose `BrokerName` equals the requested name
(case-sensitive string equality), or `none` (Python `None`) when no summary
matches.  The `list_brokers` response is passed in as the summary list. -/
def get_broker_id (broker_name : String) : List BrokerSummary → Option String
  | [] => none
  | b :: rest =>
      if b.brokerName = broker_name then some b.brokerId
      else get_broker_id broker_name rest

/-- A transport call issued against the remote control plane. -/
inductive ApiCall where
  | listBrokers
  | describeBroker (brokerId : Option String)
  | deleteBroker (brokerId : String)
  | rebootBroker (brokerId : String)
deriving DecidableEq

/-! ## `mq_broker.py`: parameter tables and the request builder -/

namespace MqBroker

/-- `PARAMS_MAP`: flat module-parameter name → API field path (a `/` in the
value denotes nesting). -/
def PARAMS_MAP : List (String × String) :=
  [("authentication_strategy", "AuthenticationStrategy"),
   ("auto_minor_version_upgrade", "AutoMinorVersionUpgrade"),
   ("broker_name", "BrokerName"),
   ("deployment_mode", "DeploymentMode"),
   ("use_aws_owned_key", "EncryptionOptions/UseAwsOwnedKey"),
   ("kms_key_id", "EncryptionOptions/KmsKeyId"),
   ("engine_type", "EngineType"),
   ("engine_version", "EngineVersion"),
   ("host_instance_type", "HostInstanceType"),
   ("enable_audit_log", "Logs/Audit"),
   ("enable_general_log", "Logs/General"),
   ("maintenance_window_start_time", "MaintenanceWindowStartTime"),
   ("publicly_accessible", "PubliclyAccessible"),
   ("security_groups", "SecurityGroups"),
   ("storage_type", "StorageType"),
   ("subnet_ids", "SubnetIds"),
   ("users", "Users")]

/-- `DEFAULTS`: creation-time default values, in source order. -/
def DEFAULTS : List (String × JValue) :=
  [("authentication_strategy", .vStr "SIMPLE"),
   ("auto_minor_version_upgrade", .vBool false),
   ("deployment_mode", .vStr "SINGLE_INSTANCE"),
   ("use_aws_owned_key", .vBool true),
   ("engine_type", .vStr "ACTIVEMQ"),
   ("engine_version", .vStr "5.15.13"),
   ("host_instance_type", .vStr "mq.t3.micro"),
   ("enable_audit_log", .vBool false),
   ("enable_general_log", .vBool false),
   ("publicly_accessible", .vBool false),
   ("storage_type", .vStr "EFS")]

/-- `CREATE_ONLY_PARAMS`: parameters accepted only at creation. -/
def CREATE_ONLY_PARAMS : List String :=
  ["deployment_mode",
   "use_aws_owned_key",
   "kms_key_id",
   "engine_type",
   "maintenance_window_start_time",
   "publicly_accessible",
   "storage_type",
   "subnet_ids",
   "users",
   "tags"]

/-- Split a mapped key on `/` (Python `mapped_key.split('/')`; when no `/`
occurs this yields the singleton list, matching the source's
`else: key_list = [mapped_key]` branch). -/
def splitSegsAux : List Char → List Char → List String
  | [], acc => [String.mk acc.reverse]
  | c :: cs, acc =>
      if c = '/' then String.mk acc.reverse :: splitSegsAux cs []
      else splitSegsAux cs (c :: acc)

/-- Path segments of a mapped API key, outermost first. -/
def pathSegs (mapped : String) : List String := splitSegsAux mapped.data []

example : pathSegs "EncryptionOptions/UseAwsOwnedKey"
    = ["EncryptionOptions", "UseAwsOwnedKey"] := rfl
example : pathSegs "BrokerName" = ["BrokerName"] := rfl

/-- Write `value` at `segs` (outermost first) in the accumulator, creating
missing intermediate dicts (`data[this_key] = {}`).  An existing non-dict
intermediate value makes the Python assignment raise `TypeError`; that path
is `none`.  An empty segment list cannot be produced by `pathSegs`. -/
def setPath : Kwargs → List String → JValue → Option Kwargs
  | _, [], _ => none
  | kw, [k], v => some (setAssoc kw k v)
  | kw, k :: k2 :: rest, v =>
      match lookupAssoc kw k with
      | none =>
          match setPath [] (k2 :: rest) v with
          | none => none
          | some m' => some (setAssoc kw k (.vMap m'))
      | some (.vMap m) =>
          match setPath m (k2 :: rest) v with
          | none => none
          | some m' => some (setAssoc kw k (.vMap m'))
      | some _ => none

/-- `_set_kwarg`: translate the flat key through `PARAMS_MAP` and write the
value at the resulting path.  A key missing from `PARAMS_MAP` would raise
`KeyError` in the source (`none` here); `_fill_kwargs` guards against it. -/
def _set_kwarg (kwargs : Kwargs) (key : String) (value : JValue) : Option Kwargs :=
  match lookupAssoc PARAMS_MAP key with
  | none => none
  | some mapped => setPath kwargs (pathSegs mapped) value

/-- One iteration of the `for p_name in module.params` loop in
`_fill_kwargs`. -/
def fillStep (kwargs : Kwargs) (entry : String × Option JValue)
    (ignore_create_params : Bool) : Option Kwargs :=
  if ignore_create_params && CREATE_ONLY_PARAMS.contains entry.1 then
    -- silently ignore CREATE_ONLY_PARAMS on update to keep playbooks idempotent
    some kwargs
  else
    match entry.2 with
    | some v =>
        if (lookupAssoc PARAMS_MAP entry.1).isSome then _set_kwarg kwargs entry.1 v
        else some kwargs
    | none => some kwargs

/-- The `module.params` loop of `_fill_kwargs`. -/
def fillList : List (String × Option JValue) → Kwargs → Bool → Option Kwargs
  | [], kwargs, _ => some kwargs
  | entry :: rest, kwargs, ignore =>
      match fillStep kwargs entry ignore with
      | none => none
      | some kwargs' => fillList rest kwargs' ignore

/-- The `for p_name in DEFAULTS` seeding loop of `_fill_kwargs`. -/
def seedDefaults : List (String × JValue) → Kwargs → Option Kwargs
  | [], kwargs => some kwargs
  | (p, v) :: rest, kwargs =>
      match _set_kwarg kwargs p v with
      | none => none
      | some kwargs' => seedDefaults rest kwargs'

/-- `_fill_kwargs(module, apply_defaults, ignore_create_params)`: seed the
defaults when requested, then overlay every mapped, non-null module
parameter, skipping creation-only parameters when ignoring them. -/
def _fill_kwargs (params : Params) (apply_defaults ignore_create_params : Bool) :
    Option Kwargs :=
  match (if apply_defaults then seedDefaults DEFAULTS [] else some []) with
  | none => none
  | some kwargs => fillList params kwargs ignore_create_params

/-- The body produced by seeding the empty accumulator from `DEFAULTS`
(the `apply_defaults` phase of `_fill_kwargs`); checked against the
defaults table by `rfl` below. -/
def seededDefaults : Kwargs :=
  [("AuthenticationStrategy", .vStr "SIMPLE"),
   ("AutoMinorVersionUpgrade", .vBool false),
   ("DeploymentMode", .vStr "SINGLE_INSTANCE"),
   ("EncryptionOptions", .vMap [("UseAwsOwnedKey", .vBool true)]),
   ("EngineType", .vStr "ACTIVEMQ"),
   ("EngineVersion", .vStr "5.15.13"),
   ("HostInstanceType", .vStr "mq.t3.micro"),
   ("Logs", .vMap [("Audit", .vBool false), ("General", .vBool false)]),
   ("PubliclyAccessible", .vBool false),
   ("StorageType", .vStr "EFS")]

example : seedDefaults DEFAULTS [] = some seededDefaults := rfl

/-- The outermost API keys written by creation-only parameters (the heads
of the `PARAMS_MAP` paths of the mapped members of `CREATE_ONLY_PARAMS`;
`tags` has no mapping). -/
def createOnlyHeads : List String :=
  ["DeploymentMode", "EncryptionOptions", "EngineType",
   "MaintenanceWindowStartTime", "PubliclyAccessible", "StorageType",
   "SubnetIds", "Users"]

/-- Python `len()` of a value, where defined (`TypeError` otherwise). -/
def jlen : JValue → Option Nat
  | .vStr s => some s.length
  | .vList l => some l.length
  | .vMap m => some m.length
  | _ => none

/-- The default administrative principal synthesized by `create_broker` when
the caller supplies no users. -/
def defaultUsers : JValue :=
  .vList [.vMap [("Username", .vStr "admin"),
                 ("Password", .vStr "adminPassword"),
                 ("ConsoleAccess", .vBool true),
                 ("Groups", .vList [])]]

/-- The `if 'Users' not in kwargs` block of `create_broker` (lines 360–369):
synthesize the default administrative user when none was supplied. -/
def ensureDefaultUsers (kwargs : Kwargs) : Kwargs :=
  if (lookupAssoc kwargs "Users").isSome then kwargs
  else setAssoc kwargs "Users" defaultUsers

/-- The `EncryptionOptions` block of `create_broker` (lines 370–371): when
the body carries `EncryptionOptions` with a `UseAwsOwnedKey` entry, that
entry is overwritten with `False`. -/
def forceOwnedKeyOff (kwargs : Kwargs) : Kwargs :=
  match lookupAssoc kwargs "EncryptionOptions" with
  | some (.vMap m) =>
      if (lookupAssoc m "UseAwsOwnedKey").isSome then
        setAssoc kwargs "EncryptionOptions"
          (.vMap (setAssoc m "UseAwsOwnedKey" (.vBool false)))
      else kwargs
  | _ => kwargs

/-- `create_broker` up to (and including) its local validation: builds the
creation body with defaults applied, rejects `AuthenticationStrategy=LDAP`,
synthesizes the default user when `Users` is absent, forces
`EncryptionOptions.UseAwsOwnedKey` to `False` whenever present, and rejects
a missing/empty `SecurityGroups`.  `.ok body` is the body handed to
`conn.create_broker(**kwargs)` (skipped in check mode); `.error` is a local
failure raised before any mutating transport call. -/
def create_broker (params : Params) : Except String Kwargs :=
  match _fill_kwargs params true false with
  | none => .error "TypeError"
  | some kwargs =>
      match lookupAssoc kwargs "AuthenticationStrategy" with
      | none => .error "KeyError: AuthenticationStrategy"
      | some a =>
          if (match a with | .vStr s => s == "LDAP" | _ => false) then
            .error "'AuthenticationStrategy=LDAP' not supported, yet"
          else
            match lookupAssoc (forceOwnedKeyOff (ensureDefaultUsers kwargs)) "SecurityGroups" with
            | none => .error "At least one security group must be specified on broker creation"
            | some sg =>
                match jlen sg with
                | none => .error "TypeError"
                | some n =>
                    if n = 0 then
                      .error "At least one security group must be specified on broker creation"
                    else .ok (forceOwnedKeyOff (ensureDefaultUsers kwargs))

/-- `update_broker`: builds the update body with `apply_defaults=False` and
`ignore_create_params=True` (creation-only parameters are silently dropped —
the source comments that this keeps playbooks idempotent), replaces
`BrokerName` by `BrokerId`, and hands the body to
`conn.update_broker(**kwargs)`.  `.ok body` is that outgoing body; no
creation-only rejection path exists in the source. -/
def update_broker (params : Params) (broker_id : String) : Except String Kwargs :=
  match _fill_kwargs params false true with
  | none => .error "TypeError"
  | some kwargs =>
      match lookupAssoc kwargs "BrokerName" with
      | none => .error "KeyError: BrokerName"
      | some _ =>
          .ok (setAssoc (delAssoc kwargs "BrokerName") "BrokerId" (.vStr broker_id))

/-- The `state == 'absent'` branch of `main` in `mq_broker.py`: resolve the
name via `get_broker_id` (one `list_brokers` call); a falsy identifier
(Python `None` or the empty string) fails with the not-found message; an
existing broker is described and then deleted (delete skipped in check
mode), returning the pre-delete description with `changed=True`.  The second
component is the trace of transport calls issued. -/
def main_absent (broker_name : String) (summaries : List BrokerSummary)
    (descOf : String → JValue) (check_mode : Bool) :
    Except String (JValue × Bool) × List ApiCall :=
  match get_broker_id broker_name summaries with
  | none =>
      (.error ("Cannot find broker with name " ++ broker_name ++ "."),
       [ApiCall.listBrokers])
  | some bid =>
      if bid = "" then
        (.error ("Cannot find broker with name " ++ broker_name ++ "."),
         [ApiCall.listBrokers])
      else
        let calls := [ApiCall.listBrokers, ApiCall.describeBroker (some bid)]
        let calls := if check_mode then calls else calls ++ [ApiCall.deleteBroker bid]
        (.ok (descOf bid, true), calls)

end MqBroker

/-! ## `mq_broker_info.py` -/

namespace MqBrokerInfo

/-- Python truthiness of an optional string parameter: `None` and the empty
string are falsy. -/
def strFalsy : Option String → Bool
  | none => true
  | some s => s = ""

/-- `main` of `mq_broker_info.py`: fail when both `broker_id` and
`broker_name` are falsy; otherwise resolve a falsy `broker_id` through
`get_broker_id` (one `list_brokers` call) and unconditionally call
`describe_broker` with whatever identifier results — including `None` when
the name matched no summary.  The second component is the call trace. -/
def info_main (broker_id broker_name : Option String) (summaries : List BrokerSummary)
    (descOf : Option String → JValue) :
    Except String JValue × List ApiCall :=
  if strFalsy broker_id && strFalsy broker_name then
    (.error "Either 'broker_id' or 'broker_name' must be specified", [])
  else
    let resolved :=
      if strFalsy broker_id then
        (get_broker_id (broker_name.getD "") summaries, [ApiCall.listBrokers])
      else (broker_id, ([] : List ApiCall))
    (.ok (descOf resolved.1), resolved.2 ++ [ApiCall.describeBroker resolved.1])

end MqBrokerInfo

/-! ## `mq_user_info.py` -/

namespace MqUserInfo

/-- One record of a `list_users` response: its `Username` field and its
optional `PendingChange` marker. -/
structure UserRecord where
  username : String
  pendingChange : Option String
deriving DecidableEq

/-- One page of a `list_users` response. -/
structure ListUsersResponse where
  users : List UserRecord
  nextToken : Option String

/-- The module-level `DEFAULTS` table of `mq_user_info.py`. -/
structure UserInfoDefaults where
  skip_pending_create : Bool
  skip_pending_delete : Bool
  as_dict : Bool
  page_size : Nat

/-- `DEFAULTS = {'skip_pending_create': False, 'skip_pending_delete': False,
'as_dict': True, 'page_size': 100}`. -/
def DEFAULTS : UserInfoDefaults :=
  { skip_pending_create := false
    skip_pending_delete := false
    as_dict := true
    page_size := 100 }

/-- The `while next_token or first_query` loop of `get_user_records`,
with the remote `list_users` endpoint as an oracle from the cursor sent to
the page returned, and an explicit fuel bound: `none` means the loop has
not terminated within `fuel` iterations.  The loop continues exactly when
the response carries a truthy (present, non-empty) `NextToken`; the server
may repeat a cursor and the source has no guard against that. -/
def getUserRecordsLoop (server : String → ListUsersResponse) :
    Nat → String → List UserRecord → Option (List UserRecord)
  | 0, _, _ => none
  | fuel + 1, cursor, acc =>
      let r := server cursor
      let acc2 := acc ++ r.users
      match r.nextToken with
      | none => some acc2
      | some t => if t = "" then some acc2 else getUserRecordsLoop server fuel t acc2

/-- `get_user_records`: run the pagination loop from the initial empty
cursor and empty accumulator. -/
def get_user_records (server : String → ListUsersResponse) (fuel : Nat) :
    Option (List UserRecord) :=
  getUserRecordsLoop server fuel "" []

/-- The fetch terminates when some fuel bound suffices. -/
def GetUserRecordsTerminates (server : String → ListUsersResponse) : Prop :=
  ∃ fuel result, get_user_records server fuel = some result

/-- Result shape of `get_user_info`: an ordered list or a
username-keyed table. -/
inductive UsersResult where
  | asList (records : List UserRecord)
  | asMap (table : List (String × UserRecord))
deriving DecidableEq

/-- `get_user_info`: filter pending creates/deletes per the two skip flags,
then — following the source exactly — branch on the constant
`DEFAULTS['as_dict']` (which is `True`), not on the caller's `as_dict`
module parameter, when deciding whether to re-key the records by
`Username`. -/
def get_user_info (skip_pending_create skip_pending_delete as_dict : Bool)
    (response_records : List UserRecord) : UsersResult :=
  let records :=
    if !skip_pending_create && !skip_pending_delete then response_records
    else
      response_records.filter (fun r =>
        !(skip_pending_create && r.pendingChange == some "CREATE") &&
        !(skip_pending_delete && r.pendingChange == some "DELETE"))
  if DEFAULTS.as_dict then
    .asMap (records.foldl (fun table r => setAssoc table r.username r) [])
  else
    .asList records

/-- A remote endpoint that answers every `list_users` request with an empty
page carrying the same non-empty continuation cursor `"X"` — the
cursor-repetition fault scenario. -/
def loopServer : String → ListUsersResponse := fun _ => ⟨[], some "X"⟩

end MqUserInfo

/-- A module-parameter dictionary whose only mapped, non-null parameter
besides the required broker name is the creation-only `storage_type`. -/
def storageTypeParams : Params :=
  [("broker_name", some (.vStr "broker-a")), ("storage_type", some (.vStr "EBS"))]

/-- Creation parameters supplying no user list (and enough to pass the
creation-time validations). -/
def noUsersParams : Params :=
  [("broker_name", some (.vStr "broker-a")),
   ("security_groups", some (.vList [.vStr "sg-1"]))]

/-- The creation body built from `noUsersParams` (used to apply theorems at
a concrete input). -/
def noUsersBody : Kwargs := (MqBroker.create_broker noUsersParams).toOption.getD []

/-! ## Theorems -/

/-- Claim C8: for every enumeration response, `get_broker_id` returns the
identifier of the first record whose name field equals the requested name
under exact, case-sensitive string comparison (`List.find?` on name
equality), and returns the explicit not-found marker `none` — not an
exception — when no record's name matches. -/
theorem get_broker_id_first_match (name : String) (summaries : List BrokerSummary) :
    get_broker_id name summaries =
      (summaries.find? (fun b => b.brokerName == name)).map BrokerSummary.brokerId := by
  induction summaries with
  | nil => rfl
  | cons b rest ih =>
      by_cases h : b.brokerName = name
      · rw [get_broker_id, if_pos h, List.find?_cons_of_pos _ (by simpa using h)]
        rfl
      · rw [get_broker_id, if_neg h, List.find?_cons_of_neg _ (by simpa using h), ih]

/-- Claim C3 (code bug): `get_user_info` branches on the constant
`DEFAULTS['as_dict']` (which is `True`) instead of the caller's `as_dict`
module parameter, so with `as_dict = false` (and no filtering) it still
returns the username-keyed mapping rather than the ordered sequence. -/
theorem get_user_info_ignores_as_dict :
    MqUserInfo.get_user_info false false false [⟨"u1", none⟩] =
      .asMap [("u1", ⟨"u1", none⟩)] := rfl

/-- Claim C4 (code bug): `main` of `mq_broker_info.py` does fail with the
must-supply message when both `broker_id` and `broker_name` are absent, but
when a supplied name matches no record in the enumeration it does not fail
with a not-found fault: it issues `describe_broker` with the null
identifier returned by `get_broker_id`. -/
theorem info_main_describes_with_null_id :
    MqBrokerInfo.info_main none none [⟨"a", "id-a"⟩] (fun _ => .vMap []) =
      (.error "Either 'broker_id' or 'broker_name' must be specified", []) ∧
    MqBrokerInfo.info_main none (some "x") [⟨"a", "id-a"⟩] (fun _ => .vMap []) =
      (.ok (.vMap []), [ApiCall.listBrokers, ApiCall.describeBroker none]) :=
  ⟨rfl, rfl⟩

/-- Claim C2 (amended): the pagination loop of `get_user_records` stops on
the first response lacking a continuation cursor, returning the records
accumulated so far plus that page's records — in particular a single
cursor-less empty page terminates the fetch at once.  (The cursor-repetition
half of the original claim is refuted separately: the source has no
repetition guard.) -/
theorem getUserRecordsLoop_stops_on_missing_cursor
    (server : String → MqUserInfo.ListUsersResponse) (fuel : Nat) (cursor : String)
    (acc : List MqUserInfo.UserRecord) (hf : 0 < fuel)
    (h : (server cursor).nextToken = none) :
    MqUserInfo.getUserRecordsLoop server fuel cursor acc =
      some (acc ++ (server cursor).users) := by
  cases fuel with
  | zero => exact absurd hf (by simp)
  | succ f => simp [MqUserInfo.getUserRecordsLoop, h]

/-- Witness for C2's amended theorem: a server whose first response is an
empty page without a cursor makes the fetch terminate immediately with the
empty record list. -/
theorem getUserRecordsLoop_stops_witness :
    0 < 1 ∧ MqUserInfo.get_user_records (fun _ => ⟨[], none⟩) 1 = some [] :=
  ⟨Nat.one_pos,
   getUserRecordsLoop_stops_on_missing_cursor (fun _ => ⟨[], none⟩) 1 "" [] Nat.one_pos rfl⟩

theorem loopServer_never_returns :
    ∀ (fuel : Nat) (cursor : String) (acc : List MqUserInfo.UserRecord),
      MqUserInfo.getUserRecordsLoop MqUserInfo.loopServer fuel cursor acc = none := by
  intro fuel
  induction fuel with
  | zero => intro cursor acc; rfl
  | succ f ih =>
      intro cursor acc
      have hX : ("X" : String) ≠ "" := by decide
      simp [MqUserInfo.getUserRecordsLoop, MqUserInfo.loopServer, hX, ih]

/-- Claim C2 counterexample: against a server that returns the same
non-empty cursor on every response, `get_user_records` never terminates —
cursor repetition is *not* treated as a fault that terminates the fetch,
contrary to the claim. -/
theorem get_user_records_loops_on_repeated_cursor :
    ¬ MqUserInfo.GetUserRecordsTerminates MqUserInfo.loopServer := by
  rintro ⟨fuel, result, h⟩
  rw [MqUserInfo.get_user_records, loopServer_never_returns fuel "" []] at h
  exact Option.noConfusion h

/-- Claim C5: when `state=absent` is requested and `get_broker_id` resolves
the name to no identifier, the controller fails with the not-found message
and its call trace contains no `delete_broker` call. -/
theorem main_absent_not_found (broker_name : String) (summaries : List BrokerSummary)
    (descOf : String → JValue) (check_mode : Bool)
    (h : get_broker_id broker_name summaries = none) :
    (MqBroker.main_absent broker_name summaries descOf check_mode).1 =
      .error ("Cannot find broker with name " ++ broker_name ++ ".") ∧
    ∀ bid, ApiCall.deleteBroker bid ∉
      (MqBroker.main_absent broker_name summaries descOf check_mode).2 := by
  unfold MqBroker.main_absent
  rw [h]
  exact ⟨rfl, fun bid => by simp⟩

/-- Witness for C5 at a concrete enumeration that does not contain the
requested name. -/
theorem main_absent_not_found_witness :
    (MqBroker.main_absent "x" [⟨"a", "id-a"⟩] (fun _ => .vMap []) false).1 =
      .error "Cannot find broker with name x." ∧
    ApiCall.deleteBroker "id-a" ∉
      (MqBroker.main_absent "x" [⟨"a", "id-a"⟩] (fun _ => .vMap []) false).2 :=
  ⟨(main_absent_not_found "x" [⟨"a", "id-a"⟩] (fun _ => .vMap []) false rfl).1,
   (main_absent_not_found "x" [⟨"a", "id-a"⟩] (fun _ => .vMap []) false rfl).2 "id-a"⟩

theorem setPath_getPath : ∀ (segs : List String) (kw kw' : Kwargs) (v : JValue),
    MqBroker.setPath kw segs v = some kw' → getPath kw' segs = some v := by
  intro segs
  induction segs with
  | nil => intro kw kw' v h; exact Option.noConfusion h
  | cons k rest ih =>
      intro kw kw' v h
      cases rest with
      | nil =>
          injection h with h'
          subst h'
          simpa [getPath] using lookupAssoc_setAssoc_self kw k v
      | cons k2 rest' =>
          unfold MqBroker.setPath at h
          split at h
          · split at h
            · exact Option.noConfusion h
            · next m' hm' =>
                injection h with h'
                subst h'
                have hget := ih [] m' v hm'
                simpa [getPath, lookupAssoc_setAssoc_self] using hget
          · next m _ =>
            split at h
            · exact Option.noConfusion h
            · next m' hm' =>
                injection h with h'
                subst h'
                have hget := ih m m' v hm'
                simpa [getPath, lookupAssoc_setAssoc_self] using hget
          · exact Option.noConfusion h

/-- Claim C6: for every flat key present in `PARAMS_MAP` and every value,
writing the value through `_set_kwarg` into any accumulator (whenever the
write is defined) and reading it back by following the mapped key's path
segments, outermost first, yields the original value. -/
theorem set_kwarg_roundtrip (key mapped : String)
    (hm : lookupAssoc MqBroker.PARAMS_MAP key = some mapped)
    (kw kw' : Kwargs) (v : JValue)
    (hset : MqBroker._set_kwarg kw key v = some kw') :
    getPath kw' (MqBroker.pathSegs mapped) = some v := by
  unfold MqBroker._set_kwarg at hset
  rw [hm] at hset
  exact setPath_getPath _ _ _ _ hset

/-- Witness for C6 at the nested key `use_aws_owned_key`, written into the
empty accumulator. -/
theorem set_kwarg_roundtrip_witness :
    lookupAssoc MqBroker.PARAMS_MAP "use_aws_owned_key" =
      some "EncryptionOptions/UseAwsOwnedKey" ∧
    getPath [("EncryptionOptions", .vMap [("UseAwsOwnedKey", .vBool false)])]
      (MqBroker.pathSegs "EncryptionOptions/UseAwsOwnedKey") = some (.vBool false) :=
  ⟨rfl, set_kwarg_roundtrip "use_aws_owned_key" "EncryptionOptions/UseAwsOwnedKey" rfl
    [] _ (.vBool false) rfl⟩

theorem fillList_create_only_stays_empty : ∀ (entries : Params),
    (∀ p v, (p, some v) ∈ entries → (lookupAssoc MqBroker.PARAMS_MAP p).isSome →
      MqBroker.CREATE_ONLY_PARAMS.contains p = true) →
    MqBroker.fillList entries [] true = some [] := by
  intro entries
  induction entries with
  | nil => intro _; rfl
  | cons e rest ih =>
      intro h
      obtain ⟨p, v⟩ := e
      have hstep : MqBroker.fillStep [] (p, v) true = some [] := by
        unfold MqBroker.fillStep
        by_cases hc : (true && MqBroker.CREATE_ONLY_PARAMS.contains p) = true
        · rw [if_pos hc]
        · rw [if_neg hc]
          cases v with
          | none => rfl
          | some w =>
              by_cases hl : (lookupAssoc MqBroker.PARAMS_MAP p).isSome
              · exact absurd (h p w (List.mem_cons_self _ _) hl) (by simpa using hc)
              · show (if (lookupAssoc MqBroker.PARAMS_MAP p).isSome = true
                        then MqBroker._set_kwarg [] p w else some []) = some []
                rw [if_neg hl]
      unfold MqBroker.fillList
      rw [hstep]
      exact ih (fun p' v' hmem hl => h p' v' (List.mem_cons_of_mem _ hmem) hl)

/-- Claim C7: building a request with `apply_defaults = false` and
`ignore_create_params = true` from a descriptor whose mapped, non-null keys
are all creation-only yields the empty request body — every such field is
silently dropped and no default is inserted. -/
theorem fill_kwargs_all_create_only_empty (params : Params)
    (h : ∀ p v, (p, some v) ∈ params → (lookupAssoc MqBroker.PARAMS_MAP p).isSome →
      MqBroker.CREATE_ONLY_PARAMS.contains p = true) :
    MqBroker._fill_kwargs params false true = some [] :=
  fillList_create_only_stays_empty params h

/-- Witness for C7: a descriptor carrying only the creation-only
`storage_type` and `subnet_ids` produces the empty body. -/
theorem fill_kwargs_all_create_only_empty_witness :
    MqBroker._fill_kwargs
      [("storage_type", some (.vStr "EBS")), ("subnet_ids", some (.vList []))]
      false true = some [] :=
  fill_kwargs_all_create_only_empty _ (by
    intro p v hmem hl
    simp only [List.mem_cons, List.mem_singleton, Prod.mk.injEq] at hmem
    rcases hmem with ⟨rfl, _⟩ | ⟨rfl, _⟩ | hmem
    · rfl
    · rfl
    · simp at hmem)

/-- Claim C1 counterexample: a desired state carrying the creation-only
`storage_type` with a non-null value does not make the update-request
builder fail — `update_broker` silently drops the field and issues the
update with the remaining body, contrary to the claimed rejection. -/
theorem update_broker_no_rejection :
    MqBroker.update_broker storageTypeParams "b-1" =
      .ok [("BrokerId", .vStr "b-1")] := rfl

theorem fillList_cons_inv {e : String × Option JValue} {rest : Params}
    {kw kw' : Kwargs} {ig : Bool}
    (h : MqBroker.fillList (e :: rest) kw ig = some kw') :
    ∃ kw1, MqBroker.fillStep kw e ig = some kw1 ∧
      MqBroker.fillList rest kw1 ig = some kw' := by
  unfold MqBroker.fillList at h
  cases hs : MqBroker.fillStep kw e ig with
  | none => rw [hs] at h; exact Option.noConfusion h
  | some kw1 =>
      rw [hs] at h
      exact ⟨kw1, rfl, h⟩

theorem setPath_two (kw : Kwargs) (k k2 : String) (v : JValue) :
    MqBroker.setPath kw [k, k2] v =
      match lookupAssoc kw k with
      | none => some (setAssoc kw k (.vMap (setAssoc [] k2 v)))
      | some (.vMap m) => some (setAssoc kw k (.vMap (setAssoc m k2 v)))
      | some _ => none := by
  unfold MqBroker.setPath
  cases lookupAssoc kw k with
  | none => rfl
  | some jv => cases jv <;> rfl

theorem getPath_two (kw : Kwargs) (k k2 : String) :
    getPath kw [k, k2] =
      match lookupAssoc kw k with
      | some (.vMap m) => lookupAssoc m k2
      | _ => none := by
  unfold getPath
  cases lookupAssoc kw k with
  | none => rfl
  | some jv => cases jv <;> rfl

theorem getPath_head_none (kw : Kwargs) (k : String) (rest : List String)
    (hl : lookupAssoc kw k = none) : getPath kw (k :: rest) = none := by
  cases rest with
  | nil => simpa [getPath] using hl
  | cons a as => simp [getPath, hl]

theorem non_create_only_head (p mp : String)
    (hl : lookupAssoc MqBroker.PARAMS_MAP p = some mp)
    (hcont : MqBroker.CREATE_ONLY_PARAMS.contains p = false) :
    (MqBroker.pathSegs mp).headD "" ∉ MqBroker.createOnlyHeads := by
  have hmem := lookupAssoc_mem hl
  fin_cases hmem <;>
    first
      | exact absurd hcont (by decide)
      | decide

theorem non_users_head (p mp : String)
    (hl : lookupAssoc MqBroker.PARAMS_MAP p = some mp) (hp : p ≠ "users") :
    (MqBroker.pathSegs mp).headD "" ≠ "Users" := by
  have hmem := lookupAssoc_mem hl
  fin_cases hmem <;>
    first
      | exact absurd rfl hp
      | decide

theorem set_kwarg_preserves_lookup (kw kw' : Kwargs) (p : String) (w : JValue) (T : String)
    (hset : MqBroker._set_kwarg kw p w = some kw')
    (hne : ∀ mp, lookupAssoc MqBroker.PARAMS_MAP p = some mp →
      (MqBroker.pathSegs mp).headD "" ≠ T) :
    lookupAssoc kw' T = lookupAssoc kw T := by
  unfold MqBroker._set_kwarg at hset
  cases hl : lookupAssoc MqBroker.PARAMS_MAP p with
  | none => rw [hl] at hset; exact Option.noConfusion hset
  | some mp =>
      rw [hl] at hset
      replace hset : MqBroker.setPath kw (MqBroker.pathSegs mp) w = some kw' := hset
      have hd := hne mp hl
      have hmem := lookupAssoc_mem hl
      fin_cases hmem <;>
        first
          | (injection hset with h
             subst h
             exact lookupAssoc_setAssoc_ne _ _ _ _ hd)
          | (rw [show MqBroker.pathSegs "EncryptionOptions/UseAwsOwnedKey"
                  = ["EncryptionOptions", "UseAwsOwnedKey"] from rfl, setPath_two] at hset
             split at hset <;>
               first
                 | (injection hset with h
                    subst h
                    exact lookupAssoc_setAssoc_ne _ _ _ _ hd)
                 | exact Option.noConfusion hset)
          | (rw [show MqBroker.pathSegs "EncryptionOptions/KmsKeyId"
                  = ["EncryptionOptions", "KmsKeyId"] from rfl, setPath_two] at hset
             split at hset <;>
               first
                 | (injection hset with h
                    subst h
                    exact lookupAssoc_setAssoc_ne _ _ _ _ hd)
                 | exact Option.noConfusion hset)
          | (rw [show MqBroker.pathSegs "Logs/Audit" = ["Logs", "Audit"] from rfl,
                 setPath_two] at hset
             split at hset <;>
               first
                 | (injection hset with h
                    subst h
                    exact lookupAssoc_setAssoc_ne _ _ _ _ hd)
                 | exact Option.noConfusion hset)
          | (rw [show MqBroker.pathSegs "Logs/General" = ["Logs", "General"] from rfl,
                 setPath_two] at hset
             split at hset <;>
               first
                 | (injection hset with h
                    subst h
                    exact lookupAssoc_setAssoc_ne _ _ _ _ hd)
                 | exact Option.noConfusion hset)

theorem fillStep_preserves_lookup (kw kw' : Kwargs) (p : String) (v : Option JValue)
    (ig : Bool) (T : String)
    (hstep : MqBroker.fillStep kw (p, v) ig = some kw')
    (hne : (ig && MqBroker.CREATE_ONLY_PARAMS.contains p) = false →
      ∀ mp, lookupAssoc MqBroker.PARAMS_MAP p = some mp →
        (MqBroker.pathSegs mp).headD "" ≠ T) :
    lookupAssoc kw' T = lookupAssoc kw T := by
  unfold MqBroker.fillStep at hstep
  by_cases hc : (ig && MqBroker.CREATE_ONLY_PARAMS.contains p) = true
  · rw [if_pos hc] at hstep
    injection hstep with h
    subst h
    rfl
  · rw [if_neg hc] at hstep
    have hcf : (ig && MqBroker.CREATE_ONLY_PARAMS.contains p) = false := by
      simpa using hc
    cases v with
    | none =>
        replace hstep : some kw = some kw' := hstep
        injection hstep with h
        subst h
        rfl
    | some w =>
        replace hstep : (if (lookupAssoc MqBroker.PARAMS_MAP p).isSome = true
            then MqBroker._set_kwarg kw p w else some kw) = some kw' := hstep
        by_cases hl : (lookupAssoc MqBroker.PARAMS_MAP p).isSome
        · rw [if_pos hl] at hstep
          exact set_kwarg_preserves_lookup kw kw' p w T hstep (hne hcf)
        · rw [if_neg hl] at hstep
          injection hstep with h
          subst h
          rfl

theorem fillList_preserves_lookup : ∀ (entries : Params) (kw kw' : Kwargs)
    (ig : Bool) (T : String),
    MqBroker.fillList entries kw ig = some kw' →
    (∀ p v, (p, v) ∈ entries →
      (ig && MqBroker.CREATE_ONLY_PARAMS.contains p) = false →
      ∀ mp, lookupAssoc MqBroker.PARAMS_MAP p = some mp →
        (MqBroker.pathSegs mp).headD "" ≠ T) →
    lookupAssoc kw' T = lookupAssoc kw T := by
  intro entries
  induction entries with
  | nil =>
      intro kw kw' ig T h _
      injection h with h'
      subst h'
      rfl
  | cons e rest ih =>
      intro kw kw' ig T h hne
      obtain ⟨p, v⟩ := e
      obtain ⟨kw1, hstep, hrest⟩ := fillList_cons_inv h
      have h1 := fillStep_preserves_lookup kw kw1 p v ig T hstep
        (fun hcf mp hmp => hne p v (List.mem_cons_self _ _) hcf mp hmp)
      have h2 := ih kw1 kw' ig T hrest
        (fun p' v' hm => hne p' v' (List.mem_cons_of_mem _ hm))
      exact h2.trans h1

theorem fillStep_users_write (kw kw' : Kwargs) (us : JValue)
    (hstep : MqBroker.fillStep kw ("users", some us) false = some kw') :
    lookupAssoc kw' "Users" = some us := by
  replace hstep : MqBroker._set_kwarg kw "users" us = some kw' := hstep
  injection hstep with h
  subst h
  exact lookupAssoc_setAssoc_self _ _ _

theorem fillList_users_absent : ∀ (entries : Params) (kw kw' : Kwargs),
    MqBroker.fillList entries kw false = some kw' →
    (∀ v : JValue, ("users", some v) ∉ entries) →
    lookupAssoc kw' "Users" = lookupAssoc kw "Users" := by
  intro entries
  induction entries with
  | nil =>
      intro kw kw' h _
      injection h with h'
      subst h'
      rfl
  | cons e rest ih =>
      intro kw kw' h habs
      obtain ⟨p, v⟩ := e
      obtain ⟨kw1, hstep, hrest⟩ := fillList_cons_inv h
      have h2 := ih kw1 kw' hrest (fun v' hv' => habs v' (List.mem_cons_of_mem _ hv'))
      rw [h2]
      by_cases hp : p = "users"
      · subst hp
        cases v with
        | none =>
            replace hstep : some kw = some kw1 := hstep
            injection hstep with h'
            subst h'
            rfl
        | some w => exact absurd (List.mem_cons_self _ _) (habs w)
      · exact fillStep_preserves_lookup kw kw1 p v false "Users" hstep
          (fun _ mp hmp => non_users_head p mp hmp hp)

theorem fillList_users_present : ∀ (entries : Params) (kw kw' : Kwargs) (us : JValue),
    MqBroker.fillList entries kw false = some kw' →
    (entries.map Prod.fst).Nodup →
    ("users", some us) ∈ entries →
    lookupAssoc kw' "Users" = some us := by
  intro entries
  induction entries with
  | nil =>
      intro kw kw' us _ _ hmem
      exact absurd hmem (List.not_mem_nil _)
  | cons e rest ih =>
      intro kw kw' us h hnd hmem
      obtain ⟨p, v⟩ := e
      obtain ⟨kw1, hstep, hrest⟩ := fillList_cons_inv h
      have hnd' : (p :: rest.map Prod.fst).Nodup := by simpa using hnd
      rcases List.mem_cons.mp hmem with heq | hmem'
      · injection heq with hp hv
        subst hp
        subst hv
        have hu := fillStep_users_write kw kw1 us hstep
        have hnone : ∀ v' : JValue, ("users", some v') ∉ rest := by
          intro v' hv'
          exact absurd (List.mem_map_of_mem Prod.fst hv')
            ((List.nodup_cons.mp hnd').1)
        rw [fillList_users_absent rest kw1 kw' hrest hnone, hu]
      · exact ih kw1 kw' us hrest (List.nodup_cons.mp hnd').2 hmem'

theorem create_only_head (p mp : String)
    (hp : p ∈ MqBroker.CREATE_ONLY_PARAMS)
    (hmp : lookupAssoc MqBroker.PARAMS_MAP p = some mp) :
    (MqBroker.pathSegs mp).headD "" ∈ MqBroker.createOnlyHeads ∧
    MqBroker.pathSegs mp = (MqBroker.pathSegs mp).headD "" :: (MqBroker.pathSegs mp).tail := by
  fin_cases hp <;>
    first
      | (simp [MqBroker.PARAMS_MAP, lookupAssoc] at hmp
         subst hmp
         exact ⟨by decide, rfl⟩)
      | (simp [MqBroker.PARAMS_MAP, lookupAssoc] at hmp)

theorem update_broker_ok_inv (params : Params) (bid : String) (kw : Kwargs)
    (hok : MqBroker.update_broker params bid = .ok kw) :
    ∃ kwF, MqBroker.fillList params [] true = some kwF ∧
      kw = setAssoc (delAssoc kwF "BrokerName") "BrokerId" (.vStr bid) := by
  unfold MqBroker.update_broker at hok
  replace hok : (match MqBroker.fillList params [] true with
      | none => (Except.error "TypeError" : Except String Kwargs)
      | some kwargs =>
          match lookupAssoc kwargs "BrokerName" with
          | none => .error "KeyError: BrokerName"
          | some _ =>
              .ok (setAssoc (delAssoc kwargs "BrokerName") "BrokerId"
                (.vStr bid))) = .ok kw := hok
  cases hf : MqBroker.fillList params [] true with
  | none => rw [hf] at hok; exact Except.noConfusion hok
  | some kwF =>
      rw [hf] at hok
      refine ⟨kwF, rfl, ?_⟩
      replace hok : (match lookupAssoc kwF "BrokerName" with
          | none => (Except.error "KeyError: BrokerName" : Except String Kwargs)
          | some _ =>
              .ok (setAssoc (delAssoc kwF "BrokerName") "BrokerId"
                (.vStr bid))) = .ok kw := hok
      cases hb : lookupAssoc kwF "BrokerName" with
      | none => rw [hb] at hok; exact Except.noConfusion hok
      | some x =>
          rw [hb] at hok
          injection hok with h
          exact h.symm

/-- Claim C1 (amended): building an update request never rejects a
creation-only field — instead every creation-only field is silently
dropped: whenever `update_broker` succeeds in building the body it hands to
`update_resource`, that body contains none of the mapped creation-only
field paths.  (The counterexample above shows the claimed
rejection-with-field-name does not happen.) -/
theorem update_broker_drops_create_only (params : Params) (bid : String) (kw : Kwargs)
    (hok : MqBroker.update_broker params bid = .ok kw) :
    ∀ p ∈ MqBroker.CREATE_ONLY_PARAMS, ∀ mp,
      lookupAssoc MqBroker.PARAMS_MAP p = some mp →
      getPath kw (MqBroker.pathSegs mp) = none := by
  obtain ⟨kwF, hfill, hkw⟩ := update_broker_ok_inv params bid kw hok
  intro p hp mp hmp
  have hT := create_only_head p mp hp hmp
  have hpres : lookupAssoc kwF ((MqBroker.pathSegs mp).headD "") =
      lookupAssoc [] ((MqBroker.pathSegs mp).headD "") := by
    refine fillList_preserves_lookup params [] kwF true _ hfill ?_
    intro p' v' _ hcf mp' hmp'
    intro heq
    refine non_create_only_head p' mp' hmp' (by simpa using hcf) ?_
    rw [heq]
    exact hT.1
  have hBT : (MqBroker.pathSegs mp).headD "" ≠ "BrokerId" ∧
      (MqBroker.pathSegs mp).headD "" ≠ "BrokerName" := by
    constructor <;> (intro h; rw [h] at hT; exact absurd hT.1 (by decide))
  have hlook : lookupAssoc kw ((MqBroker.pathSegs mp).headD "") = none := by
    rw [hkw, lookupAssoc_setAssoc_ne _ _ _ _ (fun he => hBT.1 he.symm),
        lookupAssoc_delAssoc_ne _ _ _ (fun he => hBT.2 he.symm), hpres]
    rfl
  rw [hT.2]
  exact getPath_head_none kw _ _ hlook

/-- Witness for C1's amended theorem: the body built from a descriptor
carrying the creation-only `storage_type` contains no `StorageType`
field. -/
theorem update_broker_drops_create_only_witness :
    getPath [("BrokerId", .vStr "b-1")] (MqBroker.pathSegs "StorageType") = none :=
  update_broker_drops_create_only storageTypeParams "b-1" [("BrokerId", .vStr "b-1")]
    rfl "storage_type" (by decide) "StorageType" rfl

theorem create_broker_ok_inv (params : Params) (kw : Kwargs)
    (hok : MqBroker.create_broker params = .ok kw) :
    ∃ kwF, MqBroker.fillList params MqBroker.seededDefaults false = some kwF ∧
      kw = MqBroker.forceOwnedKeyOff (MqBroker.ensureDefaultUsers kwF) := by
  unfold MqBroker.create_broker at hok
  split at hok
  · exact Except.noConfusion hok
  · next kwargs hf =>
      split at hok
      · exact Except.noConfusion hok
      · next a ha =>
          split at hok
          · exact Except.noConfusion hok
          · split at hok
            · exact Except.noConfusion hok
            · next sg hsg =>
                split at hok
                · exact Except.noConfusion hok
                · next n hn =>
                    split at hok
                    · exact Except.noConfusion hok
                    · injection hok with h
                      exact ⟨kwargs, hf, h.symm⟩

theorem ensureDefaultUsers_absent (kw : Kwargs)
    (h : lookupAssoc kw "Users" = none) :
    lookupAssoc (MqBroker.ensureDefaultUsers kw) "Users" = some MqBroker.defaultUsers := by
  unfold MqBroker.ensureDefaultUsers
  rw [h]
  simpa using lookupAssoc_setAssoc_self kw "Users" MqBroker.defaultUsers

theorem ensureDefaultUsers_present (kw : Kwargs) (u : JValue)
    (h : lookupAssoc kw "Users" = some u) :
    lookupAssoc (MqBroker.ensureDefaultUsers kw) "Users" = some u := by
  unfold MqBroker.ensureDefaultUsers
  rw [h]
  simpa using h

theorem forceOwnedKeyOff_lookup_ne (kw : Kwargs) (T : String)
    (hT : T ≠ "EncryptionOptions") :
    lookupAssoc (MqBroker.forceOwnedKeyOff kw) T = lookupAssoc kw T := by
  unfold MqBroker.forceOwnedKeyOff
  cases he : lookupAssoc kw "EncryptionOptions" with
  | none => rfl
  | some jv =>
      cases jv with
      | vMap m =>
          by_cases hu : (lookupAssoc m "UseAwsOwnedKey").isSome
          · show lookupAssoc (if (lookupAssoc m "UseAwsOwnedKey").isSome = true
                then setAssoc kw "EncryptionOptions"
                  (.vMap (setAssoc m "UseAwsOwnedKey" (.vBool false)))
                else kw) T = lookupAssoc kw T
            rw [if_pos hu]
            exact lookupAssoc_setAssoc_ne _ _ _ _ (fun he2 => hT he2.symm)
          · show lookupAssoc (if (lookupAssoc m "UseAwsOwnedKey").isSome = true
                then setAssoc kw "EncryptionOptions"
                  (.vMap (setAssoc m "UseAwsOwnedKey" (.vBool false)))
                else kw) T = lookupAssoc kw T
            rw [if_neg hu]
      | vStr s => rfl
      | vBool b => rfl
      | vInt n => rfl
      | vList l => rfl

/-- Claim C9: whenever `create_broker` builds its outgoing request body, the
`Users` field of that body is exactly the single default administrative
principal when the descriptor supplied no user list, and exactly the
supplied list when it did (passed through unchanged).  The descriptor is a
Python dict, so its keys are assumed distinct. -/
theorem create_broker_users_contract (params : Params) (kw : Kwargs)
    (hnd : (params.map Prod.fst).Nodup)
    (hok : MqBroker.create_broker params = .ok kw) :
    ((∀ v : JValue, ("users", some v) ∉ params) →
      lookupAssoc kw "Users" = some MqBroker.defaultUsers) ∧
    (∀ us : JValue, ("users", some us) ∈ params →
      lookupAssoc kw "Users" = some us) := by
  obtain ⟨kwF, hfill, hkw⟩ := create_broker_ok_inv params kw hok
  have hforce : lookupAssoc (MqBroker.forceOwnedKeyOff (MqBroker.ensureDefaultUsers kwF))
      "Users" = lookupAssoc (MqBroker.ensureDefaultUsers kwF) "Users" :=
    forceOwnedKeyOff_lookup_ne _ _ (by decide)
  constructor
  · intro habs
    have h0 : lookupAssoc kwF "Users" = none :=
      (fillList_users_absent params MqBroker.seededDefaults kwF hfill habs).trans rfl
    rw [hkw, hforce, ensureDefaultUsers_absent kwF h0]
  · intro us hmem
    have h0 : lookupAssoc kwF "Users" = some us :=
      fillList_users_present params MqBroker.seededDefaults kwF us hfill hnd hmem
    rw [hkw, hforce, ensureDefaultUsers_present kwF us h0]

/-- Witness for C9: concrete creation parameters without a user list
produce a body whose `Users` is the single default administrative
principal. -/
theorem create_broker_users_contract_witness :
    MqBroker.create_broker noUsersParams = .ok noUsersBody ∧
    lookupAssoc noUsersBody "Users" = some MqBroker.defaultUsers :=
  ⟨rfl,
   (create_broker_users_contract noUsersParams noUsersBody (by decide) rfl).1
     (by intro v hv; simp [noUsersParams] at hv)⟩

theorem forceOwnedKeyOff_path_false (kw : Kwargs) (v : JValue)
    (h : getPath (MqBroker.forceOwnedKeyOff kw) ["EncryptionOptions", "UseAwsOwnedKey"]
      = some v) :
    v = .vBool false := by
  unfold MqBroker.forceOwnedKeyOff at h
  cases he : lookupAssoc kw "EncryptionOptions" with
  | none =>
      rw [he] at h
      replace h : getPath kw ["EncryptionOptions", "UseAwsOwnedKey"] = some v := h
      rw [getPath_head_none kw _ _ he] at h
      exact Option.noConfusion h
  | some jv =>
      rw [he] at h
      cases jv with
      | vMap m =>
          by_cases hu : (lookupAssoc m "UseAwsOwnedKey").isSome
          · replace h : getPath (if (lookupAssoc m "UseAwsOwnedKey").isSome = true
                then setAssoc kw "EncryptionOptions"
                  (.vMap (setAssoc m "UseAwsOwnedKey" (.vBool false)))
                else kw) ["EncryptionOptions", "UseAwsOwnedKey"] = some v := h
            rw [if_pos hu, getPath_two, lookupAssoc_setAssoc_self] at h
            replace h : lookupAssoc (setAssoc m "UseAwsOwnedKey" (.vBool false))
                "UseAwsOwnedKey" = some v := h
            rw [lookupAssoc_setAssoc_self] at h
            injection h with h'
            exact h'.symm
          · replace h : getPath (if (lookupAssoc m "UseAwsOwnedKey").isSome = true
                then setAssoc kw "EncryptionOptions"
                  (.vMap (setAssoc m "UseAwsOwnedKey" (.vBool false)))
                else kw) ["EncryptionOptions", "UseAwsOwnedKey"] = some v := h
            rw [if_neg hu, getPath_two, he] at h
            replace h : lookupAssoc m "UseAwsOwnedKey" = some v := h
            rw [Option.not_isSome_iff_eq_none.mp hu] at h
            exact Option.noConfusion h
      | vStr s =>
          replace h : getPath kw ["EncryptionOptions", "UseAwsOwnedKey"] = some v := h
          rw [getPath_two, he] at h
          exact Option.noConfusion h
      | vBool b =>
          replace h : getPath kw ["EncryptionOptions", "UseAwsOwnedKey"] = some v := h
          rw [getPath_two, he] at h
          exact Option.noConfusion h
      | vInt n =>
          replace h : getPath kw ["EncryptionOptions", "UseAwsOwnedKey"] = some v := h
          rw [getPath_two, he] at h
          exact Option.noConfusion h
      | vList l =>
          replace h : getPath kw ["EncryptionOptions", "UseAwsOwnedKey"] = some v := h
          rw [getPath_two, he] at h
          exact Option.noConfusion h

/-- Claim C10: every creation request body built by `create_broker`
(defaults are always applied there) has `EncryptionOptions/UseAwsOwnedKey`
equal to `false` whenever the field is present — in particular a
default-built creation request never carries `UseAwsOwnedKey = true`, even
though the default table sets it to `true`. -/
theorem create_broker_forces_owned_key_off (params : Params) (kw : Kwargs)
    (hok : MqBroker.create_broker params = .ok kw) :
    ∀ v, getPath kw ["EncryptionOptions", "UseAwsOwnedKey"] = some v →
      v = .vBool false := by
  obtain ⟨kwF, _, hkw⟩ := create_broker_ok_inv params kw hok
  intro v hv
  rw [hkw] at hv
  exact forceOwnedKeyOff_path_false _ v hv

/-- Witness for C10: concrete creation parameters supplying no
`kms_key_id` and no `use_aws_owned_key` (so the default `true` is seeded)
still produce a body carrying `UseAwsOwnedKey = false`. -/
theorem create_broker_forces_owned_key_off_witness :
    getPath noUsersBody ["EncryptionOptions", "UseAwsOwnedKey"]
      = some (.vBool false) ∧
    JValue.vBool false = JValue.vBool false :=
  ⟨rfl,
   create_broker_forces_owned_key_off noUsersParams noUsersBody rfl
     (.vBool false) rfl⟩
